import Mathlib

/-!
# Verification of the ugol-trans-website access-control and validation core

Shallow embedding of the role-based admin access mixins (`core/mixins.py`),
the model-level validation and save pipelines of `applications/models.py`,
`business_analytics/models.py`, `contacts/models.py`, `dynamic_pages/models.py`,
and the singleton access rules, together with proofs of the specified
properties.

Conventions of the embedding:
* Python strings processed character by character (phone numbers, colors,
  emails) are `List Char`; plain data fields are `String`.
* A raised Django `ValidationError` is an `Except`-style error value.  A
  `ValidationError({'field': msg})` becomes a one-entry list of `FieldError`s
  with `field = some "field"`; a non-field `ValidationError("msg")` has
  `field = none`.
* Database state is a `List` of rows; Django's save-by-primary-key is
  delete-then-append on the key.  The admin write path always runs
  `full_clean` before persisting, so `save` here is clean-then-persist.
* Python regexes used by the validators are embedded as backtracking
  matchers over `List Char` (a state is the list of possible remainders).
-/

/-- A field-scoped validation error: `field = none` is a non-field error. -/
structure FieldError where
  field : Option String
  message : String
  deriving Repr, DecidableEq

/-! ## Role resolution and the access policy (core/mixins.py) -/

/-- The closed set of staff roles (`accounts.User.role`). -/
inductive Role where
  | admin
  | content_manager
  | crm_manager
  deriving Repr, DecidableEq

/-- Admin operations gated by the `has_*_permission` methods. -/
inductive Operation where
  | view
  | add
  | change
  | delete
  deriving Repr, DecidableEq

/-- The request's principal: authentication and staff flags plus the
stored role attribute (`getattr(request.user, 'role', None)`). -/
structure Principal where
  is_authenticated : Bool
  is_staff : Bool
  role : Option Role
  deriving Repr, DecidableEq

/-- `BaseAccessMixin.get_user_role`: `None` unless the user is an
authenticated staff account, otherwise the stored role. -/
def get_user_role (u : Principal) : Option Role :=
  if !u.is_authenticated || !u.is_staff then none else u.role

/-- `BaseAccessMixin._has_role_permission`: `role in allowed_roles if role
else False`. -/
def has_role_permission (u : Principal) (allowed_roles : List Role) : Bool :=
  match get_user_role u with
  | some role => allowed_roles.contains role
  | none => false

/-- Resource categories, one per access mixin in `core/mixins.py`. -/
inductive Category where
  | accounts        -- AdminOnlyAccessMixin
  | history         -- HistoryAccessMixin
  | applications    -- ApplicationsCRMAccessMixin
  | content         -- ContentManagerAccessMixin
  | site_settings   -- SiteSettingsAccessMixin
  deriving Repr, DecidableEq

/-- The access decision `can(role, category, operation)`, assembled from the
`has_view/add/change/delete_permission` methods of the five mixins. -/
def can (u : Principal) (cat : Category) (op : Operation) : Bool :=
  match cat with
  | .accounts => has_role_permission u [.admin]
  | .history =>
      match op with
      | .add => false
      | .change => false
      | _ => has_role_permission u [.admin]
  | .applications => has_role_permission u [.admin, .crm_manager]
  | .content => has_role_permission u [.admin, .content_manager]
  | .site_settings =>
      match op with
      | .add => false
      | .delete => false
      | _ => has_role_permission u [.admin, .content_manager]

/-! ## Diagrams and the activation limit (business_analytics/models.py) -/

/-- `Diagram.MAX_ACTIVE_DIAGRAMS`. -/
def MAX_ACTIVE_DIAGRAMS : Nat := 2

/-- A `Diagram` row: primary key (none before first save), the
`is_active` flag inherited from `StatusModel`, and the fields used by
`Diagram.clean`. -/
structure Diagram where
  pk : Option Nat
  is_active : Bool
  title : String
  measurement_unit : String
  deriving Repr, DecidableEq

namespace Diagram

/-- The queryset `Diagram.objects.filter(is_active=True)` with
`.exclude(pk=self.pk)` applied when the instance already has a key. -/
def active_qs (db : List Diagram) (d : Diagram) : List Diagram :=
  let base := db.filter (fun x => x.is_active)
  match d.pk with
  | some k => base.filter (fun x => decide (x.pk ≠ some k))
  | none => base

/-- `Diagram._validate_active_limit`: when activating, reject if the
other active diagrams already number `MAX_ACTIVE_DIAGRAMS` or more. -/
def validate_active_limit (db : List Diagram) (d : Diagram) :
    Except (List FieldError) Unit :=
  if d.is_active then
    if MAX_ACTIVE_DIAGRAMS ≤ (active_qs db d).length then
      .error [⟨some "is_active",
        "Нельзя активировать более 2 диаграмм."⟩]
    else .ok ()
  else .ok ()

/-- `Diagram._validate_measurement_unit`: the unit must not be empty or
whitespace-only. -/
def validate_measurement_unit (d : Diagram) : Except (List FieldError) Unit :=
  if d.measurement_unit = "" ∨ (d.measurement_unit.toList.all (fun c => c.isWhitespace)) then
    .error [⟨some "measurement_unit",
      "Единица измерения обязательна для заполнения."⟩]
  else .ok ()

/-- `Diagram.clean`: active-limit check, then measurement-unit check. -/
def clean (db : List Diagram) (d : Diagram) : Except (List FieldError) Unit := do
  validate_active_limit db d
  validate_measurement_unit d

/-- A fresh primary key for a newly inserted row. -/
def freshPk (db : List Diagram) : Nat :=
  (db.map (fun x => x.pk.getD 0)).foldr max 0 + 1

/-- A validated save (the admin write path: `full_clean` then persist).
Persisting with an existing key replaces the row with that key;
persisting without a key appends the row under a fresh key. -/
def save (db : List Diagram) (d : Diagram) :
    Except (List FieldError) (List Diagram) := do
  clean db d
  match d.pk with
  | some k => pure (db.filter (fun x => decide (x.pk ≠ some k)) ++ [d])
  | none => pure (db ++ [{ d with pk := some (freshPk db) }])

/-- A save attempt: on validation failure the stored rows are unchanged. -/
def trySave (db : List Diagram) (d : Diagram) : List Diagram :=
  match save db d with
  | .ok db' => db'
  | .error _ => db

/-- A sequence of save attempts, applied left to right. -/
def saveAll (db : List Diagram) (ds : List Diagram) : List Diagram :=
  ds.foldl trySave db

/-- The number of stored diagrams with `is_active = true`. -/
def activeCount (db : List Diagram) : Nat :=
  (db.filter (fun x => x.is_active)).length

end Diagram

/-! ## Embedded regex matchers

The Python validators use `re.match(pattern, s)` with `$`-anchored
patterns, i.e. full-string matching.  A matcher step maps the list of
possible remainders to the list of possible remainders after the step;
the input matches when the empty remainder is reachable. -/

namespace Re

/-- Consume one character of a class. -/
def pchar (s : Char → Bool) (L : List (List Char)) : List (List Char) :=
  L.flatMap fun cs =>
    match cs with
    | [] => []
    | c :: rest => if s c then [rest] else []

/-- Consume one literal character. -/
def plit (c : Char) : List (List Char) → List (List Char) :=
  pchar (fun x => x == c)

/-- `p?`: zero or one occurrence. -/
def popt (p : List (List Char) → List (List Char)) (L : List (List Char)) :
    List (List Char) :=
  L ++ p L

/-- `p|q`: alternation. -/
def palt (p q : List (List Char) → List (List Char)) (L : List (List Char)) :
    List (List Char) :=
  p L ++ q L

/-- `c*` for a character class, on one remainder: all ways to skip a
prefix of class characters. -/
def pstar1 (s : Char → Bool) : List Char → List (List Char)
  | [] => [[]]
  | c :: rest => (c :: rest) :: (if s c then pstar1 s rest else [])

/-- `c*` for a character class, on a state set. -/
def pstar (s : Char → Bool) (L : List (List Char)) : List (List Char) :=
  L.flatMap (pstar1 s)

/-- `c+` for a character class. -/
def pplus (s : Char → Bool) (L : List (List Char)) : List (List Char) :=
  pstar s (pchar s L)

/-- `c{n}` for a character class. -/
def pdigits (s : Char → Bool) : Nat → List (List Char) → List (List Char)
  | 0, L => L
  | n + 1, L => pdigits s n (pchar s L)

end Re

/-! ## Phone validation (applications/models.py, contacts/models.py) -/

/-- The character class kept by `re.sub(r'[^\d\+]', '', phone)`. -/
def phoneKeepChar (c : Char) : Bool :=
  c.isDigit || c == '+'

/-- `re.sub(r'[^\d\+]', '', phone)`: strip everything that is not a digit
or a plus sign. -/
def clean_phone_chars (cs : List Char) : List Char :=
  cs.filter phoneKeepChar

/-- The `[\s\-]` class of the phone regex (Python `\s` is
`[ \t\n\r\f\v]`). -/
def wsDash (c : Char) : Bool :=
  c == ' ' || c == '\t' || c == '\n' || c == '\r' || c == '\x0c' || c == '\x0b' || c == '-'

/-- The `[489]` class of the phone regex. -/
def digit489 (c : Char) : Bool :=
  c == '4' || c == '8' || c == '9'

/-- The optional prefix `(\+7|7|8)` of the phone regex. -/
def phonePrefix : List (List Char) → List (List Char) :=
  Re.palt (fun L => Re.plit '7' (Re.plit '+' L))
    (Re.palt (Re.plit '7') (Re.plit '8'))

/-- The state set after running the phone regex
`^(\+7|7|8)?[\s\-]?\(?[489][0-9]{2}\)?[\s\-]?[0-9]{3}[\s\-]?[0-9]{2}[\s\-]?[0-9]{2}$`
over `cs`. -/
def phoneStates (cs : List Char) : List (List Char) :=
  [cs]
  |> Re.popt phonePrefix
  |> Re.popt (Re.pchar wsDash)
  |> Re.popt (Re.plit '(')
  |> Re.pchar digit489
  |> Re.pdigits Char.isDigit 2
  |> Re.popt (Re.plit ')')
  |> Re.popt (Re.pchar wsDash)
  |> Re.pdigits Char.isDigit 3
  |> Re.popt (Re.pchar wsDash)
  |> Re.pdigits Char.isDigit 2
  |> Re.popt (Re.pchar wsDash)
  |> Re.pdigits Char.isDigit 2

/-- Full-string acceptance of the phone regex. -/
def matchPhone (cs : List Char) : Bool :=
  (phoneStates cs).contains []

/-! ## Email regex of `Application._validate_email`:
`^[a-zA-Z0-9._%+-]+@[a-zA-Z0-9.-]+\.[a-zA-Z]{2,}$` -/

/-- The `[a-zA-Z0-9._%+-]` class. -/
def emailUserChar (c : Char) : Bool :=
  c.isAlpha || c.isDigit || c == '.' || c == '_' || c == '%' || c == '+' || c == '-'

/-- The `[a-zA-Z0-9.-]` class. -/
def emailDomainChar (c : Char) : Bool :=
  c.isAlpha || c.isDigit || c == '.' || c == '-'

/-- Acceptance of the email regex under `re.match`: the body must consume
the whole string, or all of it but a single trailing newline (Python's
`$`). -/
def matchEmail (cs : List Char) : Bool :=
  let final := [cs]
    |> Re.pplus emailUserChar
    |> Re.plit '@'
    |> Re.pplus emailDomainChar
    |> Re.plit '.'
    |> Re.pchar Char.isAlpha
    |> Re.pchar Char.isAlpha
    |> Re.pstar Char.isAlpha
  final.contains [] || final.contains ['\n']

/-! ## Applications (applications/models.py) -/

/-- An `Application` row: the fields touched by `clean` and `save`.
`processed_at` is an abstract timestamp (`none` = NULL). -/
structure Application where
  pk : Option Nat
  name : String
  phone : List Char
  email : List Char
  message : String
  status : String
  manager_comment : String
  processed_at : Option Nat
  deriving Repr, DecidableEq

namespace Application

/-- `Application._validate_phone`: strip, match the Russian phone regex,
and store the cleaned number back on the instance. -/
def validate_phone (a : Application) : Except (List FieldError) Application :=
  let clean_phone := clean_phone_chars a.phone
  if matchPhone clean_phone then .ok { a with phone := clean_phone }
  else .error [⟨some "phone",
    "Введите корректный номер телефона в формате: +7 999 123-45-67"⟩]

/-- `Application._validate_email`. -/
def validate_email (a : Application) : Except (List FieldError) Application :=
  if matchEmail a.email then .ok a
  else .error [⟨some "email", "Введите корректный email адрес"⟩]

/-- `Application.clean`: require at least one contact, then validate the
phone (normalising it), then validate the email.  Each failing check
raises immediately, as in the source. -/
def clean (a : Application) : Except (List FieldError) Application :=
  if a.phone = [] ∧ a.email = [] then
    .error [⟨none, "Необходимо указать либо телефон, либо email адрес."⟩]
  else
    (if a.phone ≠ [] then validate_phone a else .ok a) >>= fun a =>
    (if a.email ≠ [] then validate_email a else .ok a) >>= fun a =>
    .ok a

/-- The timestamp recomputation at the top of `Application.save`: stamp
`processed_at` when the status is `processed` and no timestamp exists,
clear it whenever the status is anything else. -/
def stamp_processed (now : Nat) (a : Application) : Application :=
  if a.status = "processed" ∧ a.processed_at = none then
    { a with processed_at := some now }
  else if a.status ≠ "processed" then { a with processed_at := none }
  else a

/-- The outcome of a successful `Application.save`: the persisted record,
whether the creation notification was dispatched, and whether a
notification failure was logged (and swallowed). -/
structure SaveOutcome where
  record : Application
  notification_attempted : Bool
  notification_error_logged : Bool
  deriving Repr, DecidableEq

/-- `Application.save`: recompute `processed_at`, run `full_clean`, persist,
and — only for newly created rows — dispatch the email notification.
`email_ok = false` models `EmailService.send_application_notification`
raising; the exception is caught, logged and swallowed. -/
def save (now : Nat) (email_ok : Bool) (a : Application) :
    Except (List FieldError) SaveOutcome :=
  match clean (stamp_processed now a) with
  | .error e => .error e
  | .ok a' =>
      .ok { record := a'
            notification_attempted := a.pk.isNone
            notification_error_logged := a.pk.isNone && !email_ok }

end Application

/-! ## Diagram-category colors (business_analytics/models.py) -/

/-- The `[A-Fa-f0-9]` class of the color regex. -/
def isHexDigit (c : Char) : Bool :=
  (65 ≤ c.toNat && c.toNat ≤ 70) || (97 ≤ c.toNat && c.toNat ≤ 102) ||
    (48 ≤ c.toNat && c.toNat ≤ 57)

/-- An upper-case hex digit `[A-F0-9]`, the canonical stored alphabet. -/
def isUpperHexDigit (c : Char) : Bool :=
  (65 ≤ c.toNat && c.toNat ≤ 70) || (48 ≤ c.toNat && c.toNat ≤ 57)

/-- Python `str.upper` on the ASCII range. -/
def pyUpper (c : Char) : Char :=
  if 97 ≤ c.toNat ∧ c.toNat ≤ 122 then Char.ofNat (c.toNat - 32) else c

/-- The body of `^#([A-Fa-f0-9]{6}|[A-Fa-f0-9]{3})$` without the anchors:
a hash mark followed by 6 or 3 hex digits. -/
def colorBodyMatch : List Char → Bool
  | c :: rest =>
      c == '#' && (rest.length == 6 || rest.length == 3) && rest.all isHexDigit
  | [] => false

/-- Acceptance of `re.match(r'^#([A-Fa-f0-9]{6}|[A-Fa-f0-9]{3})$', s)`.
Python's `$` matches at the end of the string or just before a single
trailing newline, so a value with one trailing newline is also accepted. -/
def colorPatternMatch (cs : List Char) : Bool :=
  colorBodyMatch cs || (cs.getLast? == some '\n' && colorBodyMatch cs.dropLast)

/-- The canonical persisted form: `#` followed by six upper-case hex
digits. -/
def canonicalColor : List Char → Bool
  | c :: rest => c == '#' && rest.length == 6 && rest.all isUpperHexDigit
  | [] => false

/-- The `#RGB -> #RRGGBB` expansion
`f"#{c[1]}{c[1]}{c[2]}{c[2]}{c[3]}{c[3]}"` (applied when `len == 4`). -/
def expand3 : List Char → List Char
  | [h, a, b, c] => [h, a, a, b, b, c, c]
  | cs => cs

/-- `DiagramCategory._validate_color`: reject non-matching strings, expand a
3-digit shorthand, upper-case the result; returns the normalised value
stored back on the instance. -/
def DiagramCategory.validate_color (color : List Char) :
    Except (List FieldError) (List Char) :=
  if colorPatternMatch color then
    let color := if color.length = 4 then expand3 color else color
    .ok (color.map pyUpper)
  else
    .error [⟨some "color",
      "Неверный формат цвета. Используйте HEX-формат."⟩]

/-! ## Section media (dynamic_pages/models.py) -/

/-- A `SectionImage` row: the three nullable parent keys and the image key. -/
structure SectionImage where
  about_section : Option Nat
  service_section : Option Nat
  document_section : Option Nat
  image : Nat
  deriving Repr, DecidableEq

/-- `SectionImage.clean`: the row must reference exactly one section. -/
def SectionImage.clean (s : SectionImage) : Except (List FieldError) Unit :=
  let sections := [s.about_section, s.service_section, s.document_section]
  let filled_sections := sections.filter (fun x => decide (x ≠ none))
  if filled_sections.length ≠ 1 then
    .error [⟨none, "Изображение должно быть привязано ровно к одной секции"⟩]
  else .ok ()

/-- A `SectionFile` row. -/
structure SectionFile where
  about_section : Option Nat
  service_section : Option Nat
  document_section : Option Nat
  file : Nat
  deriving Repr, DecidableEq

/-- `SectionFile.clean`: the row must reference exactly one section. -/
def SectionFile.clean (s : SectionFile) : Except (List FieldError) Unit :=
  let sections := [s.about_section, s.service_section, s.document_section]
  let filled_sections := sections.filter (fun x => decide (x ≠ none))
  if filled_sections.length ≠ 1 then
    .error [⟨none, "Файл должен быть привязан ровно к одной секции"⟩]
  else .ok ()

/-! ## Company phones (contacts/models.py) -/

/-- A `Phone` row (`contacts.Phone`): the validated number and its
description. -/
structure Phone where
  pk : Option Nat
  is_active : Bool
  number : List Char
  description : String
  deriving Repr, DecidableEq

/-- `Phone._validate_phone`: identical to the applications validator but
reporting on the `number` field. -/
def Phone.validate_phone (p : Phone) : Except (List FieldError) Phone :=
  let clean_phone := clean_phone_chars p.number
  if matchPhone clean_phone then .ok { p with number := clean_phone }
  else .error [⟨some "number",
    "Введите корректный номер телефона в формате: +7 999 123-45-67"⟩]

/-- The digit part of a normalized phone value: everything after an
optional leading `+`. -/
def phoneDigitsPart (v : List Char) : List Char :=
  if v.head? = some '+' then v.tail else v

/-- The spec's description of an accepted normalized phone value: all
digits after an optional leading `+`; either 11 digits starting with 7 or
8, or 10 digits. -/
def russianPhoneShape (v : List Char) : Prop :=
  (phoneDigitsPart v).all Char.isDigit = true ∧
  (((phoneDigitsPart v).length = 11 ∧
    ((phoneDigitsPart v).head? = some '7' ∨
     (phoneDigitsPart v).head? = some '8')) ∨
   (phoneDigitsPart v).length = 10)

/-! ## Theorems -/

/-- C1: the access decision function matches the spec's decision table: a
`crm_manager` is denied every operation on the content category and allowed
every operation on the applications category; a `content_manager` is denied
every operation on the applications category; a principal whose resolved
role is `None` is denied every operation on every category. -/
theorem access_policy_decision_table (u : Principal) :
    (get_user_role u = some .crm_manager →
      ∀ op, can u .content op = false ∧ can u .applications op = true) ∧
    (get_user_role u = some .content_manager →
      ∀ op, can u .applications op = false) ∧
    (get_user_role u = none →
      ∀ cat op, can u cat op = false) := by
  refine ⟨?_, ?_, ?_⟩
  · intro h op
    cases op <;> simp [can, has_role_permission, h]
  · intro h op
    cases op <;> simp [can, has_role_permission, h]
  · intro h cat op
    cases cat <;> cases op <;> simp [can, has_role_permission, h]

/-- Witness for C1, at a staff CRM manager, a staff content manager, and an
unauthenticated principal. -/
theorem access_policy_decision_table_witness :
    can ⟨true, true, some .crm_manager⟩ .content .delete = false ∧
    can ⟨true, true, some .crm_manager⟩ .applications .add = true ∧
    can ⟨true, true, some .content_manager⟩ .applications .view = false ∧
    can ⟨false, false, none⟩ .content .view = false :=
  ⟨((access_policy_decision_table ⟨true, true, some .crm_manager⟩).1 rfl .delete).1,
   ((access_policy_decision_table ⟨true, true, some .crm_manager⟩).1 rfl .add).2,
   (access_policy_decision_table ⟨true, true, some .content_manager⟩).2.1 rfl .view,
   (access_policy_decision_table ⟨false, false, none⟩).2.2 rfl .content .view⟩

/-- C9: for the `SiteSettings` singleton, `add` and `delete` are denied for
every principal regardless of role, while `view` and `change` follow the
admin/content_manager policy row. -/
theorem site_settings_singleton_policy (u : Principal) :
    can u .site_settings .add = false ∧
    can u .site_settings .delete = false ∧
    can u .site_settings .view = has_role_permission u [.admin, .content_manager] ∧
    can u .site_settings .change = has_role_permission u [.admin, .content_manager] :=
  ⟨rfl, rfl, rfl, rfl⟩

/-- C10: validating a diagram whose `is_active` is false never raises the
activation-limit error, whatever the other stored diagrams are. -/
theorem inactive_diagram_limit_unreachable (db : List Diagram) (d : Diagram)
    (h : d.is_active = false) :
    Diagram.validate_active_limit db d = .ok () := by
  simp [Diagram.validate_active_limit, h]

/-- Witness for C10: an inactive diagram passes the limit check even with
three active diagrams stored. -/
theorem inactive_diagram_limit_unreachable_witness :
    Diagram.validate_active_limit
      [⟨some 1, true, "a", "t"⟩, ⟨some 2, true, "b", "t"⟩, ⟨some 3, true, "c", "t"⟩]
      ⟨some 4, false, "d", "t"⟩ = .ok () :=
  inactive_diagram_limit_unreachable _ _ rfl

/-- If `Diagram.clean` succeeds on an active diagram, the other active
diagrams are strictly below the limit. -/
theorem Diagram.clean_ok_limit {db : List Diagram} {d : Diagram}
    (hc : Diagram.clean db d = .ok ()) (ha : d.is_active = true) :
    (Diagram.active_qs db d).length < MAX_ACTIVE_DIAGRAMS := by
  by_contra hlt
  push_neg at hlt
  simp [Diagram.clean, Diagram.validate_active_limit, ha, hlt,
    Bind.bind, Except.bind] at hc

/-- Counting after two filters is independent of their order. -/
theorem length_filter_swap (p q : Diagram → Bool) (l : List Diagram) :
    (List.filter p (List.filter q l)).length =
      (List.filter q (List.filter p l)).length := by
  rw [List.filter_filter, List.filter_filter]
  congr 1
  apply List.filter_congr
  intro x _
  exact Bool.and_comm _ _

/-- Appending one row adds one to the active count exactly when the row is
active. -/
theorem Diagram.activeCount_append_single (l : List Diagram) (d : Diagram) :
    Diagram.activeCount (l ++ [d]) =
      Diagram.activeCount l + (if d.is_active then 1 else 0) := by
  simp [Diagram.activeCount, List.filter_append, List.filter]
  cases h : d.is_active <;> simp [h]

/-- One save attempt preserves the activation-limit invariant. -/
theorem Diagram.trySave_activeCount_le (db : List Diagram) (d : Diagram)
    (h : Diagram.activeCount db ≤ MAX_ACTIVE_DIAGRAMS) :
    Diagram.activeCount (Diagram.trySave db d) ≤ MAX_ACTIVE_DIAGRAMS := by
  unfold Diagram.trySave
  cases hs : Diagram.save db d with
  | error e => exact h
  | ok db' =>
    unfold Diagram.save at hs
    cases hc : Diagram.clean db d with
    | error e => simp [hc, Bind.bind, Except.bind] at hs
    | ok u =>
      rw [hc] at hs
      simp only [Bind.bind, Except.bind] at hs
      cases hpk : d.pk with
      | some k =>
        rw [hpk] at hs
        simp only [pure, Except.pure, Except.ok.injEq] at hs
        subst hs
        rw [Diagram.activeCount_append_single]
        have hq : Diagram.activeCount
            (db.filter (fun x => decide (x.pk ≠ some k))) =
            (Diagram.active_qs db d).length := by
          unfold Diagram.activeCount Diagram.active_qs
          rw [hpk]
          exact length_filter_swap _ _ db
        rw [hq]
        cases hact : d.is_active with
        | true =>
          have hlim := Diagram.clean_ok_limit hc hact
          rw [show (if true = true then (1:Nat) else 0) = 1 from rfl]
          omega
        | false =>
          have hle : (Diagram.active_qs db d).length ≤
              Diagram.activeCount db := by
            unfold Diagram.active_qs Diagram.activeCount
            rw [hpk]
            exact List.length_filter_le _ _
          rw [show (if false = true then (1:Nat) else 0) = 0 from rfl]
          omega
      | none =>
        rw [hpk] at hs
        simp only [pure, Except.pure, Except.ok.injEq] at hs
        subst hs
        rw [Diagram.activeCount_append_single]
        have hfld : ({ d with pk := some (Diagram.freshPk db) } : Diagram).is_active
            = d.is_active := rfl
        rw [hfld]
        cases hact : d.is_active with
        | true =>
          have hlim := Diagram.clean_ok_limit hc hact
          have hq : (Diagram.active_qs db d).length = Diagram.activeCount db := by
            simp [Diagram.active_qs, Diagram.activeCount, hpk]
          rw [hq] at hlim
          rw [show (if true = true then (1:Nat) else 0) = 1 from rfl]
          omega
        | false =>
          rw [show (if false = true then (1:Nat) else 0) = 0 from rfl]
          omega

/-- Folding save attempts preserves the activation-limit invariant. -/
theorem Diagram.saveAll_activeCount_le (ds : List Diagram) (db : List Diagram)
    (h : Diagram.activeCount db ≤ MAX_ACTIVE_DIAGRAMS) :
    Diagram.activeCount (Diagram.saveAll db ds) ≤ MAX_ACTIVE_DIAGRAMS := by
  induction ds generalizing db with
  | nil => exact h
  | cons d ds ih =>
    exact ih (Diagram.trySave db d) (Diagram.trySave_activeCount_le db d h)

/-- C2: over any sequence of diagram save attempts the number of active
diagrams never exceeds `MAX_ACTIVE_DIAGRAMS` (= 2); an activation attempted
while two or more other diagrams are active fails with a validation error on
the `is_active` field, and the stored diagrams are unchanged by the rejected
attempt. -/
theorem diagram_activation_limit (db : List Diagram) :
    (Diagram.activeCount db ≤ MAX_ACTIVE_DIAGRAMS →
      ∀ ds, Diagram.activeCount (Diagram.saveAll db ds) ≤ MAX_ACTIVE_DIAGRAMS) ∧
    (∀ d, d.is_active = true →
      MAX_ACTIVE_DIAGRAMS ≤ (Diagram.active_qs db d).length →
      (∃ msg, Diagram.save db d = .error [⟨some "is_active", msg⟩]) ∧
      Diagram.trySave db d = db) := by
  constructor
  · intro h ds
    exact Diagram.saveAll_activeCount_le ds db h
  · intro d ha hcnt
    have hsave : Diagram.save db d = .error [⟨some "is_active",
        "Нельзя активировать более 2 диаграмм."⟩] := by
      unfold Diagram.save Diagram.clean Diagram.validate_active_limit
      rw [ha]
      simp only [if_pos hcnt, if_pos rfl, Bind.bind, Except.bind]
      simp
    refine ⟨⟨_, hsave⟩, ?_⟩
    unfold Diagram.trySave
    rw [hsave]

/-- Witness for C2: three consecutive activation attempts on an empty store
leave at most two active diagrams, and an activation rejected over a store
with two active diagrams leaves the store unchanged. -/
theorem diagram_activation_limit_witness :
    Diagram.activeCount
      (Diagram.saveAll []
        [⟨none, true, "a", "t"⟩, ⟨none, true, "b", "t"⟩, ⟨none, true, "c", "t"⟩])
      ≤ MAX_ACTIVE_DIAGRAMS ∧
    Diagram.trySave
      [⟨some 1, true, "a", "t"⟩, ⟨some 2, true, "b", "t"⟩]
      ⟨none, true, "c", "t"⟩ =
      [⟨some 1, true, "a", "t"⟩, ⟨some 2, true, "b", "t"⟩] :=
  ⟨(diagram_activation_limit []).1 (by decide)
      [⟨none, true, "a", "t"⟩, ⟨none, true, "b", "t"⟩, ⟨none, true, "c", "t"⟩],
   ((diagram_activation_limit
      [⟨some 1, true, "a", "t"⟩, ⟨some 2, true, "b", "t"⟩]).2
      ⟨none, true, "c", "t"⟩ rfl (by decide)).2⟩

/-- `_validate_phone` only rewrites the phone field (to the stripped
number); every other field is untouched. -/
theorem Application.validate_phone_ok {a b : Application}
    (h : Application.validate_phone a = .ok b) :
    b = { a with phone := clean_phone_chars a.phone } ∧
    matchPhone (clean_phone_chars a.phone) = true := by
  simp only [Application.validate_phone] at h
  split at h
  · next hm => exact ⟨(Except.ok.injEq _ _).mp h |>.symm, hm⟩
  · cases h

/-- `_validate_email` does not modify the instance. -/
theorem Application.validate_email_ok {a b : Application}
    (h : Application.validate_email a = .ok b) : b = a := by
  unfold Application.validate_email at h
  split at h
  · exact ((Except.ok.injEq _ _).mp h).symm
  · cases h

/-- Binding a successful `Except` computation applies the continuation. -/
theorem except_bind_ok {ε α β : Type} (x : α) (f : α → Except ε β) :
    ((Except.ok x : Except ε α) >>= f) = f x := rfl

/-- Binding a failed `Except` computation propagates the error. -/
theorem except_bind_error {ε α β : Type} (e : ε) (f : α → Except ε β) :
    ((Except.error e : Except ε α) >>= f) = .error e := rfl

/-- `Application.clean` can only rewrite the phone field: primary key,
status and `processed_at` survive validation unchanged. -/
theorem Application.clean_ok_fields {a b : Application}
    (h : Application.clean a = .ok b) :
    b.pk = a.pk ∧ b.status = a.status ∧ b.processed_at = a.processed_at := by
  unfold Application.clean at h
  split at h
  · cases h
  · cases hp : (if a.phone ≠ [] then Application.validate_phone a else .ok a) with
    | error e => rw [hp, except_bind_error] at h; cases h
    | ok a1 =>
      rw [hp] at h
      simp only [except_bind_ok] at h
      have ha1 : a1.pk = a.pk ∧ a1.status = a.status ∧
          a1.processed_at = a.processed_at ∧ a1.email = a.email := by
        by_cases hph : a.phone ≠ []
        · rw [if_pos hph] at hp
          obtain ⟨hb, -⟩ := Application.validate_phone_ok hp
          subst hb
          exact ⟨rfl, rfl, rfl, rfl⟩
        · rw [if_neg hph] at hp
          cases hp
          exact ⟨rfl, rfl, rfl, rfl⟩
      cases he : (if a1.email ≠ [] then Application.validate_email a1 else .ok a1) with
      | error e => rw [he, except_bind_error] at h; cases h
      | ok a2 =>
        rw [he, except_bind_ok] at h
        have hb : b = a2 := ((Except.ok.injEq _ _).mp h).symm
        have ha2 : a2 = a1 := by
          by_cases hem : a1.email ≠ []
          · rw [if_pos hem] at he
            exact Application.validate_email_ok he
          · rw [if_neg hem] at he
            cases he
            rfl
        subst hb
        subst ha2
        exact ⟨ha1.1, ha1.2.1, ha1.2.2.1⟩

/-- The `processed_at` recomputation at the top of `Application.save`:
field-level description of `stamp_processed`. -/
theorem Application.stamp_processed_spec (now : Nat) (a : Application) :
    (Application.stamp_processed now a).status = a.status ∧
    ((Application.stamp_processed now a).processed_at.isSome
      = (a.status == "processed")) ∧
    (a.status = "processed" → a.processed_at = none →
      (Application.stamp_processed now a).processed_at = some now) ∧
    (a.status ≠ "processed" →
      (Application.stamp_processed now a).processed_at = none) := by
  unfold Application.stamp_processed
  by_cases h1 : a.status = "processed" ∧ a.processed_at = none
  · rw [if_pos h1]
    refine ⟨rfl, ?_, fun _ _ => rfl, fun hne => absurd h1.1 hne⟩
    simp [h1.1]
  · rw [if_neg h1]
    by_cases h2 : a.status ≠ "processed"
    · rw [if_pos h2]
      refine ⟨rfl, ?_, fun hp _ => absurd hp h2, fun _ => rfl⟩
      simp [h2]
    · rw [if_neg h2]
      push_neg at h2
      have hne : a.processed_at ≠ none := fun hn => h1 ⟨h2, hn⟩
      refine ⟨rfl, ?_, fun _ hn => absurd hn hne, fun hc => absurd h2 hc⟩
      simp [h2, Option.isSome_iff_ne_none, hne]

/-- C3: after every successful `Application.save`, `processed_at` is
non-null iff the stored status is `processed`; saving with status
`processed` and no timestamp stamps the save time, and saving with any
other status clears the timestamp, regardless of the caller-supplied
value. -/
theorem application_processed_at_recompute (now : Nat) (email_ok : Bool)
    (a : Application) (r : Application.SaveOutcome)
    (h : Application.save now email_ok a = .ok r) :
    (r.record.processed_at.isSome = (r.record.status == "processed")) ∧
    (a.status = "processed" → a.processed_at = none →
      r.record.processed_at = some now) ∧
    (a.status ≠ "processed" → r.record.processed_at = none) := by
  unfold Application.save at h
  cases hc : Application.clean (Application.stamp_processed now a) with
  | error e => rw [hc] at h; cases h
  | ok a' =>
    rw [hc] at h
    have hr : r = ⟨a', a.pk.isNone, a.pk.isNone && !email_ok⟩ :=
      ((Except.ok.injEq _ _).mp h).symm
    subst hr
    obtain ⟨hpk, hst, hpa⟩ := Application.clean_ok_fields hc
    obtain ⟨sst, siff, sset, sclr⟩ := Application.stamp_processed_spec now a
    refine ⟨?_, ?_, ?_⟩
    · show a'.processed_at.isSome = (a'.status == "processed")
      rw [hpa, hst, sst, siff]
    · intro h1 h2
      show a'.processed_at = some now
      rw [hpa, sset h1 h2]
    · intro h1
      show a'.processed_at = none
      rw [hpa, sclr h1]

/-- Witness for C3: saving a new inquiry with status `processed` and no
timestamp stamps the save time; saving it again with status `new` clears
the timestamp. -/
theorem application_processed_at_recompute_witness :
    Application.save 5 true
        ⟨none, "i", "+79991234567".toList, [], "m", "processed", "", none⟩ =
      .ok ⟨⟨none, "i", "+79991234567".toList, [], "m", "processed", "", some 5⟩,
        true, false⟩ ∧
    (⟨⟨none, "i", "+79991234567".toList, [], "m", "processed", "", some 5⟩,
        true, false⟩ : Application.SaveOutcome).record.processed_at = some 5 ∧
    (⟨⟨some 1, "i", "+79991234567".toList, [], "m", "new", "", none⟩,
        false, false⟩ : Application.SaveOutcome).record.processed_at = none :=
  ⟨by rfl,
   (application_processed_at_recompute 5 true
      ⟨none, "i", "+79991234567".toList, [], "m", "processed", "", none⟩
      ⟨⟨none, "i", "+79991234567".toList, [], "m", "processed", "", some 5⟩,
        true, false⟩ (by rfl)).2.1 rfl rfl,
   (application_processed_at_recompute 7 true
      ⟨some 1, "i", "+79991234567".toList, [], "m", "new", "", some 5⟩
      ⟨⟨some 1, "i", "+79991234567".toList, [], "m", "new", "", none⟩,
        false, false⟩ (by rfl)).2.2 (by decide)⟩

/-- C8: the creation notification is attempted exactly when the saved row
is new (no primary key); a notification failure is logged and swallowed:
the save still succeeds and the persisted record is identical whatever the
notification outcome. -/
theorem application_notification_isolation (now : Nat) (e₁ e₂ : Bool)
    (a : Application) (r : Application.SaveOutcome)
    (h : Application.save now e₁ a = .ok r) :
    r.notification_attempted = a.pk.isNone ∧
    r.notification_error_logged = (a.pk.isNone && !e₁) ∧
    Application.save now e₂ a =
      .ok { r with notification_error_logged := a.pk.isNone && !e₂ } := by
  unfold Application.save at h ⊢
  cases hc : Application.clean (Application.stamp_processed now a) with
  | error e => rw [hc] at h; cases h
  | ok a' =>
    rw [hc] at h
    have hr : r = ⟨a', a.pk.isNone, a.pk.isNone && !e₁⟩ :=
      ((Except.ok.injEq _ _).mp h).symm
    subst hr
    exact ⟨rfl, rfl, rfl⟩

/-- Witness for C8: a new inquiry whose notification dispatch raises is
persisted anyway, the failure is logged, and re-running the save with a
successful dispatch yields the identical record. -/
theorem application_notification_isolation_witness :
    Application.save 5 false
        ⟨none, "i", "+79991234567".toList, [], "m", "new", "", none⟩ =
      .ok ⟨⟨none, "i", "+79991234567".toList, [], "m", "new", "", none⟩,
        true, true⟩ ∧
    (⟨⟨none, "i", "+79991234567".toList, [], "m", "new", "", none⟩,
        true, true⟩ : Application.SaveOutcome).notification_attempted = true ∧
    Application.save 5 true
        ⟨none, "i", "+79991234567".toList, [], "m", "new", "", none⟩ =
      .ok ⟨⟨none, "i", "+79991234567".toList, [], "m", "new", "", none⟩,
        true, false⟩ :=
  ⟨by rfl,
   (application_notification_isolation 5 false true
      ⟨none, "i", "+79991234567".toList, [], "m", "new", "", none⟩
      ⟨⟨none, "i", "+79991234567".toList, [], "m", "new", "", none⟩,
        true, true⟩ (by rfl)).1,
   (application_notification_isolation 5 false true
      ⟨none, "i", "+79991234567".toList, [], "m", "new", "", none⟩
      ⟨⟨none, "i", "+79991234567".toList, [], "m", "new", "", none⟩,
        true, true⟩ (by rfl)).2.2⟩

/-- Exactly one of the three parent references is non-null. -/
def exactlyOneParent (a b c : Option Nat) : Prop :=
  (a ≠ none ∧ b = none ∧ c = none) ∨
  (a = none ∧ b ≠ none ∧ c = none) ∨
  (a = none ∧ b = none ∧ c ≠ none)

/-- C7: a `SectionImage` or `SectionFile` passes validation (and hence can
be persisted) iff exactly one of `about_section`, `service_section`,
`document_section` is non-null: zero parents or two or more parents are
rejected with a validation error. -/
theorem section_media_exactly_one_parent :
    (∀ s : SectionImage, SectionImage.clean s = .ok () ↔
      exactlyOneParent s.about_section s.service_section s.document_section) ∧
    (∀ s : SectionFile, SectionFile.clean s = .ok () ↔
      exactlyOneParent s.about_section s.service_section s.document_section) := by
  constructor
  · rintro ⟨a, b, c, i⟩
    cases a <;> cases b <;> cases c <;>
      simp [SectionImage.clean, exactlyOneParent]
  · rintro ⟨a, b, c, f⟩
    cases a <;> cases b <;> cases c <;>
      simp [SectionFile.clean, exactlyOneParent]

/-- Upper-casing a hex digit yields an upper-case hex digit. -/
theorem pyUpper_upperHex {c : Char} (h : isHexDigit c = true) :
    isUpperHexDigit (pyUpper c) = true := by
  simp only [isHexDigit, Bool.or_eq_true, Bool.and_eq_true,
    decide_eq_true_eq] at h
  unfold pyUpper
  rcases h with (h | h) | h
  · rw [if_neg (by omega)]
    simp only [isUpperHexDigit, Bool.or_eq_true, Bool.and_eq_true,
      decide_eq_true_eq]
    omega
  · rw [if_pos (by omega)]
    obtain ⟨n, hn⟩ : ∃ n, c.toNat = n := ⟨_, rfl⟩
    rw [hn] at h ⊢
    obtain ⟨h1, h2⟩ := h
    clear hn
    interval_cases n <;> decide
  · rw [if_neg (by omega)]
    simp only [isUpperHexDigit, Bool.or_eq_true, Bool.and_eq_true,
      decide_eq_true_eq]
    omega

/-- Upper-case hex digits are fixed points of upper-casing. -/
theorem pyUpper_fix {c : Char} (h : isUpperHexDigit c = true) :
    pyUpper c = c := by
  simp only [isUpperHexDigit, Bool.or_eq_true, Bool.and_eq_true,
    decide_eq_true_eq] at h
  unfold pyUpper
  rcases h with h | h <;> rw [if_neg (by omega)]

/-- Every upper-case hex digit is a hex digit. -/
theorem upperHex_isHex {c : Char} (h : isUpperHexDigit c = true) :
    isHexDigit c = true := by
  simp only [isUpperHexDigit, Bool.or_eq_true, Bool.and_eq_true,
    decide_eq_true_eq] at h
  simp only [isHexDigit, Bool.or_eq_true, Bool.and_eq_true,
    decide_eq_true_eq]
  omega

/-- `pyUpper` fixes the hash mark. -/
theorem pyUpper_hash : pyUpper '#' = '#' := by decide

/-- Upper-casing a `#`-prefixed 6-hex-digit string yields a canonical color
that re-validates to itself. -/
theorem validate_color_hex6 {r6 : List Char} (hlen : r6.length = 6)
    (hhex : r6.all isHexDigit = true) :
    canonicalColor ('#' :: r6.map pyUpper) = true ∧
    DiagramCategory.validate_color ('#' :: r6.map pyUpper) =
      .ok ('#' :: r6.map pyUpper) := by
  have hupper : (r6.map pyUpper).all isUpperHexDigit = true := by
    rw [List.all_eq_true] at hhex ⊢
    intro x hx
    obtain ⟨a, ha, rfl⟩ := List.mem_map.mp hx
    exact pyUpper_upperHex (hhex a ha)
  have hfix : (r6.map pyUpper).map pyUpper = r6.map pyUpper := by
    conv_rhs => rw [← List.map_id (r6.map pyUpper)]
    apply List.map_congr_left
    intro a ha
    exact pyUpper_fix ((List.all_eq_true.mp hupper) a ha)
  have hlx : (r6.map pyUpper).length = 6 := by simp [hlen]
  have hhex' : (r6.map pyUpper).all isHexDigit = true := by
    rw [List.all_eq_true] at hupper ⊢
    intro x hx
    exact upperHex_isHex (hupper x hx)
  constructor
  · simp [canonicalColor, hupper, hlen]
  · unfold DiagramCategory.validate_color
    have hbody : colorBodyMatch ('#' :: r6.map pyUpper) = true := by
      show ('#' == '#' && ((r6.map pyUpper).length == 6 ||
        (r6.map pyUpper).length == 3) && (r6.map pyUpper).all isHexDigit) = true
      rw [hlx, hhex']
      rfl
    have hmatch : colorPatternMatch ('#' :: r6.map pyUpper) = true := by
      unfold colorPatternMatch
      rw [hbody, Bool.true_or]
    rw [if_pos hmatch]
    rw [if_neg (by simp [hlen])]
    show Except.ok (('#' :: r6.map pyUpper).map pyUpper) =
      Except.ok ('#' :: r6.map pyUpper)
    rw [List.map_cons, pyUpper_hash, hfix]

/-- C6 counterexample: Python's `$` also matches before a trailing
newline, so the source accepts `"#ABC\n"` — no expansion fires (length 5)
and `upper()` changes nothing, so the stored color is the 5-character,
non-canonical value `"#ABC\n"`. -/
theorem diagram_category_color_trailing_newline :
    colorPatternMatch "#ABC\n".toList = true ∧
    DiagramCategory.validate_color "#ABC\n".toList = .ok "#ABC\n".toList ∧
    canonicalColor "#ABC\n".toList = false :=
  ⟨rfl, rfl, rfl⟩

/-- C6 amended: color validation accepts exactly the strings matching
`^#([A-Fa-f0-9]{6}|[A-Fa-f0-9]{3})$` under Python `re` semantics, where
`$` also accepts a single trailing newline; for every accepted input whose
body is the whole string (no trailing newline) the stored color is `#`
plus six upper-case hex digits and re-validating the normalised value is a
no-op; `#ABC` expands to `#AABBCC`. -/
theorem diagram_category_color_normalization :
    (∀ cs, (DiagramCategory.validate_color cs).isOk = colorPatternMatch cs) ∧
    (∀ cs cs', colorBodyMatch cs = true →
      DiagramCategory.validate_color cs = .ok cs' →
      canonicalColor cs' = true ∧
      DiagramCategory.validate_color cs' = .ok cs') ∧
    DiagramCategory.validate_color "#ABC".toList = .ok "#AABBCC".toList ∧
    DiagramCategory.validate_color "#AABBCC".toList = .ok "#AABBCC".toList := by
  refine ⟨?_, ?_, by rfl, by rfl⟩
  · intro cs
    unfold DiagramCategory.validate_color
    by_cases hm : colorPatternMatch cs = true
    · rw [if_pos hm, hm]
      rfl
    · rw [if_neg hm]
      rw [Bool.not_eq_true] at hm
      rw [hm]
      rfl
  · intro cs cs' hb h
    unfold DiagramCategory.validate_color at h
    have hm : colorPatternMatch cs = true := by
      unfold colorPatternMatch
      rw [hb, Bool.true_or]
    rw [if_pos hm] at h
    have hcs' : cs' = (if cs.length = 4 then expand3 cs else cs).map pyUpper :=
      ((Except.ok.injEq _ _).mp h).symm
    cases cs with
    | nil => cases hb
    | cons c rest =>
      have hm' : (c == '#' && (rest.length == 6 || rest.length == 3) &&
          rest.all isHexDigit) = true := hb
      simp only [Bool.and_eq_true, Bool.or_eq_true, beq_iff_eq] at hm'
      obtain ⟨⟨hc, hlen⟩, hhex⟩ := hm'
      subst hc
      rcases hlen with h6 | h3
      · have hne : ('#' :: rest).length ≠ 4 := by simp [h6]
        rw [if_neg hne] at hcs'
        rw [List.map_cons, pyUpper_hash] at hcs'
        subst hcs'
        exact validate_color_hex6 h6 hhex
      · obtain ⟨a, b, c, rfl⟩ := List.length_eq_three.mp h3
        have heq : ('#' :: [a, b, c]).length = 4 := rfl
        rw [if_pos heq] at hcs'
        have hexp : expand3 ('#' :: [a, b, c]) = ['#', a, a, b, b, c, c] := rfl
        rw [hexp] at hcs'
        have hcs'' : cs' = '#' :: [a, a, b, b, c, c].map pyUpper := by
          rw [hcs']
          rw [show (['#', a, a, b, b, c, c] : List Char) =
            '#' :: [a, a, b, b, c, c] from rfl]
          rw [List.map_cons, pyUpper_hash]
        subst hcs''
        have hhex6 : ([a, a, b, b, c, c] : List Char).all isHexDigit = true := by
          rw [List.all_eq_true] at hhex ⊢
          have ha := hhex a (by simp)
          have hb := hhex b (by simp)
          have hc := hhex c (by simp)
          intro x hx
          simp only [List.mem_cons, List.not_mem_nil, or_false] at hx
          rcases hx with rfl | rfl | rfl | rfl | rfl | rfl <;> assumption
        exact validate_color_hex6 rfl hhex6

/-- Witness for C6: the newline-free accepted input `#ABC` yields the
canonical value `#AABBCC`, which re-validates to itself. -/
theorem diagram_category_color_normalization_witness :
    canonicalColor "#AABBCC".toList = true ∧
    DiagramCategory.validate_color "#AABBCC".toList = .ok "#AABBCC".toList :=
  diagram_category_color_normalization.2.1 "#ABC".toList "#AABBCC".toList
    (by rfl) (by rfl)

/-- C4 counterexample: an `Application` whose phone (`"123"`) and email
(`"x@localhost"`) are both invalid for the model's own validators yields a
single error entry for `phone` in one validation pass — no entry for
`email` is accumulated. -/
theorem application_clean_not_accumulating :
    (Application.validate_phone
      ⟨none, "i", ['1', '2', '3'], "x@localhost".toList, "m", "new", "", none⟩).isOk
      = false ∧
    (Application.validate_email
      ⟨none, "i", ['1', '2', '3'], "x@localhost".toList, "m", "new", "", none⟩).isOk
      = false ∧
    Application.clean
      ⟨none, "i", ['1', '2', '3'], "x@localhost".toList, "m", "new", "", none⟩ =
      .error [⟨some "phone",
        "Введите корректный номер телефона в формате: +7 999 123-45-67"⟩] :=
  ⟨rfl, rfl, rfl⟩

/-- C4 amended, scoped to the entity the counterexample exercises:
`Application.clean` is fail-fast, not accumulating — every validation
failure it raises carries exactly one field entry, and a failing phone
check short-circuits the email check: its error alone is the result. -/
theorem application_clean_fail_fast :
    (∀ a errs, Application.clean a = .error errs → errs.length = 1) ∧
    (∀ a errs, a.phone ≠ [] → Application.validate_phone a = .error errs →
      Application.clean a = .error errs) := by
  constructor
  · intro a errs h
    unfold Application.clean at h
    split at h
    · cases h
      rfl
    · cases hp : (if a.phone ≠ [] then Application.validate_phone a else .ok a) with
      | error e =>
        rw [hp, except_bind_error] at h
        cases h
        by_cases hph : a.phone ≠ []
        · rw [if_pos hph] at hp
          simp only [Application.validate_phone] at hp
          split at hp
          · cases hp
          · cases hp
            rfl
        · rw [if_neg hph] at hp
          cases hp
      | ok a1 =>
        rw [hp, except_bind_ok] at h
        cases he : (if a1.email ≠ [] then Application.validate_email a1 else .ok a1) with
        | error e =>
          rw [he, except_bind_error] at h
          cases h
          by_cases hem : a1.email ≠ []
          · rw [if_pos hem] at he
            unfold Application.validate_email at he
            split at he
            · cases he
            · cases he
              rfl
          · rw [if_neg hem] at he
            cases he
        | ok a2 =>
          rw [he, except_bind_ok] at h
          cases h
  · intro a errs hph hvp
    unfold Application.clean
    rw [if_neg (fun hb => hph hb.1), if_pos hph, hvp, except_bind_error]

/-- Witness for the amended C4: the counterexample input's phone failure is
the entire validation result. -/
theorem application_clean_fail_fast_witness :
    Application.clean
      ⟨none, "i", ['1', '2', '3'], "x@localhost".toList, "m", "new", "", none⟩ =
      .error [⟨some "phone",
        "Введите корректный номер телефона в формате: +7 999 123-45-67"⟩] :=
  application_clean_fail_fast.2
    ⟨none, "i", ['1', '2', '3'], "x@localhost".toList, "m", "new", "", none⟩
    [⟨some "phone",
      "Введите корректный номер телефона в формате: +7 999 123-45-67"⟩]
    (by decide) (by rfl)


/-- Membership inversion for one-character steps. -/
theorem Re.mem_pchar {s : Char → Bool} {L : List (List Char)}
    {rest : List Char} :
    rest ∈ Re.pchar s L ↔ ∃ c, s c = true ∧ (c :: rest) ∈ L := by
  unfold Re.pchar
  rw [List.mem_flatMap]
  constructor
  · rintro ⟨cs, hcs, hr⟩
    cases cs with
    | nil => simp at hr
    | cons c r =>
      have hr' : rest ∈ (if s c = true then [r] else []) := hr
      by_cases hs : s c = true
      · rw [if_pos hs] at hr'
        simp only [List.mem_singleton] at hr'
        subst hr'
        exact ⟨c, hs, hcs⟩
      · rw [if_neg hs] at hr'
        simp at hr'
  · rintro ⟨c, hs, hmem⟩
    refine ⟨c :: rest, hmem, ?_⟩
    show rest ∈ (if s c = true then [rest] else [])
    rw [if_pos hs]
    simp

/-- Membership in an optional step. -/
theorem Re.mem_popt {p : List (List Char) → List (List Char)}
    {L : List (List Char)} {rest : List Char} :
    rest ∈ Re.popt p L ↔ rest ∈ L ∨ rest ∈ p L :=
  List.mem_append

/-- Membership in an alternation. -/
theorem Re.mem_palt {p q : List (List Char) → List (List Char)}
    {L : List (List Char)} {rest : List Char} :
    rest ∈ Re.palt p q L ↔ rest ∈ p L ∨ rest ∈ q L :=
  List.mem_append

/-- Membership inversion for an `n`-fold character-class repetition: the
consumed characters are a block of `n` class characters. -/
theorem Re.mem_pdigits {s : Char → Bool} {n : Nat} {L : List (List Char)}
    {rest : List Char} :
    rest ∈ Re.pdigits s n L ↔
      ∃ ds, ds.length = n ∧ ds.all s = true ∧ (ds ++ rest) ∈ L := by
  induction n generalizing L with
  | zero =>
    constructor
    · intro h
      exact ⟨[], rfl, rfl, h⟩
    · rintro ⟨ds, hlen, -, hmem⟩
      rw [List.length_eq_zero.mp hlen] at hmem
      exact hmem
  | succ n ih =>
    show rest ∈ Re.pdigits s n (Re.pchar s L) ↔ _
    rw [ih]
    constructor
    · rintro ⟨ds, hlen, hall, hmem⟩
      obtain ⟨c, hs, hmem'⟩ := Re.mem_pchar.mp hmem
      exact ⟨c :: ds, by simp [hlen], by simp [hs, hall], by simpa using hmem'⟩
    · rintro ⟨ds, hlen, hall, hmem⟩
      cases ds with
      | nil => cases hlen
      | cons c ds' =>
        simp only [List.all_cons, Bool.and_eq_true] at hall
        exact ⟨ds', by simpa using hlen, hall.2,
          Re.mem_pchar.mpr ⟨c, hall.1, by simpa using hmem⟩⟩

/-- One-character steps produce suffixes of the original input. -/
theorem Re.suffix_pchar {s : Char → Bool} {L : List (List Char)}
    {cs0 : List Char} (h : ∀ y ∈ L, y <:+ cs0) :
    ∀ y ∈ Re.pchar s L, y <:+ cs0 := by
  intro y hy
  obtain ⟨c, -, hmem⟩ := Re.mem_pchar.mp hy
  exact (List.suffix_cons c y).trans (h _ hmem)

/-- Optional one-character steps produce suffixes of the original input. -/
theorem Re.suffix_popt_pchar {s : Char → Bool} {L : List (List Char)}
    {cs0 : List Char} (h : ∀ y ∈ L, y <:+ cs0) :
    ∀ y ∈ Re.popt (Re.pchar s) L, y <:+ cs0 := by
  intro y hy
  rcases Re.mem_popt.mp hy with hy | hy
  · exact h _ hy
  · exact Re.suffix_pchar h _ hy

/-- Character-class repetitions produce suffixes of the original input. -/
theorem Re.suffix_pdigits {s : Char → Bool} {n : Nat} {L : List (List Char)}
    {cs0 : List Char} (h : ∀ y ∈ L, y <:+ cs0) :
    ∀ y ∈ Re.pdigits s n L, y <:+ cs0 := by
  induction n generalizing L with
  | zero => exact h
  | succ n ih => exact ih (Re.suffix_pchar h)

/-- Over an input of kept phone characters, an optional step whose class
contains no kept character consumes nothing. -/
theorem Re.popt_collapse {s : Char → Bool} {L : List (List Char)}
    {cs0 : List Char} {x : List Char}
    (hgood : cs0.all phoneKeepChar = true)
    (hsfx : ∀ y ∈ L, y <:+ cs0)
    (hns : ∀ c, phoneKeepChar c = true → s c = false)
    (hx : x ∈ Re.popt (Re.pchar s) L) : x ∈ L := by
  rcases Re.mem_popt.mp hx with h | h
  · exact h
  · obtain ⟨c, hs, hmem⟩ := Re.mem_pchar.mp h
    have hc : phoneKeepChar c = true :=
      (List.all_eq_true.mp hgood) c ((hsfx _ hmem).subset (by simp))
    rw [hns c hc] at hs
    cases hs

/-- Kept phone characters are never separator characters. -/
theorem keep_not_wsDash {c : Char} (h : phoneKeepChar c = true) :
    wsDash c = false := by
  cases hw : wsDash c
  · rfl
  · exfalso
    simp only [wsDash, Bool.or_eq_true, beq_iff_eq] at hw
    rcases hw with ((((((rfl | rfl) | rfl) | rfl) | rfl) | rfl) | rfl) <;>
      exact absurd h (by decide)

/-- Kept phone characters are never an opening parenthesis. -/
theorem keep_not_lparen {c : Char} (h : phoneKeepChar c = true) :
    (c == '(') = false := by
  cases hw : c == '('
  · rfl
  · exfalso
    rw [beq_iff_eq] at hw
    subst hw
    exact absurd h (by decide)

/-- Kept phone characters are never a closing parenthesis. -/
theorem keep_not_rparen {c : Char} (h : phoneKeepChar c = true) :
    (c == ')') = false := by
  cases hw : c == ')'
  · rfl
  · exfalso
    rw [beq_iff_eq] at hw
    subst hw
    exact absurd h (by decide)

/-- Inversion of the phone regex over stripped input: an accepted value is
a `[489]` digit followed by nine digits, optionally preceded by `+7`, `7`
or `8`. -/
theorem matchPhone_shape {cs : List Char}
    (hgood : cs.all phoneKeepChar = true)
    (hm : matchPhone cs = true) :
    ∃ c0 rest9, digit489 c0 = true ∧ rest9.length = 9 ∧
      rest9.all Char.isDigit = true ∧
      (cs = c0 :: rest9 ∨ cs = '7' :: c0 :: rest9 ∨
       cs = '8' :: c0 :: rest9 ∨ cs = '+' :: '7' :: c0 :: rest9) := by
  unfold matchPhone at hm
  have hmem : ([] : List Char) ∈ phoneStates cs := by
    revert hm
    generalize phoneStates cs = L
    intro hm
    exact List.elem_iff.mp hm
  unfold phoneStates at hmem
  set L1 := Re.popt phonePrefix [cs] with e1
  set L2 := Re.popt (Re.pchar wsDash) L1 with e2
  set L3 := Re.popt (Re.plit '(') L2 with e3
  set L4 := Re.pchar digit489 L3 with e4
  set L5 := Re.pdigits Char.isDigit 2 L4 with e5
  set L6 := Re.popt (Re.plit ')') L5 with e6
  set L7 := Re.popt (Re.pchar wsDash) L6 with e7
  set L8 := Re.pdigits Char.isDigit 3 L7 with e8
  set L9 := Re.popt (Re.pchar wsDash) L8 with e9
  set L10 := Re.pdigits Char.isDigit 2 L9 with e10
  set L11 := Re.popt (Re.pchar wsDash) L10 with e11
  have s0 : ∀ y ∈ [cs], y <:+ cs := by
    intro y hy
    rw [List.mem_singleton] at hy
    rw [hy]
  have s1 : ∀ y ∈ L1, y <:+ cs := by
    rw [e1]
    intro y hy
    rcases Re.mem_popt.mp hy with hy | hy
    · exact s0 _ hy
    · rcases Re.mem_palt.mp hy with hy | hy
      · exact Re.suffix_pchar (Re.suffix_pchar s0) _ hy
      · rcases Re.mem_palt.mp hy with hy | hy
        · exact Re.suffix_pchar s0 _ hy
        · exact Re.suffix_pchar s0 _ hy
  have s2 : ∀ y ∈ L2, y <:+ cs := by rw [e2]; exact Re.suffix_popt_pchar s1
  have s3 : ∀ y ∈ L3, y <:+ cs := by rw [e3]; exact Re.suffix_popt_pchar s2
  have s4 : ∀ y ∈ L4, y <:+ cs := by rw [e4]; exact Re.suffix_pchar s3
  have s5 : ∀ y ∈ L5, y <:+ cs := by rw [e5]; exact Re.suffix_pdigits s4
  have s6 : ∀ y ∈ L6, y <:+ cs := by rw [e6]; exact Re.suffix_popt_pchar s5
  have s8 : ∀ y ∈ L8, y <:+ cs := by
    rw [e8]
    exact Re.suffix_pdigits (by rw [e7]; exact Re.suffix_popt_pchar s6)
  have s10 : ∀ y ∈ L10, y <:+ cs := by
    rw [e10]
    exact Re.suffix_pdigits (by rw [e9]; exact Re.suffix_popt_pchar s8)
  obtain ⟨e2d, he2len, he2all, he2mem⟩ := Re.mem_pdigits.mp hmem
  rw [List.append_nil] at he2mem
  rw [e11] at he2mem
  have h10 : e2d ∈ L10 :=
    Re.popt_collapse hgood s10 (fun _ hc => keep_not_wsDash hc) he2mem
  rw [e10] at h10
  obtain ⟨f2d, hf2len, hf2all, hf2mem⟩ := Re.mem_pdigits.mp h10
  rw [e9] at hf2mem
  have h8 : f2d ++ e2d ∈ L8 :=
    Re.popt_collapse hgood s8 (fun _ hc => keep_not_wsDash hc) hf2mem
  rw [e8] at h8
  obtain ⟨g3d, hg3len, hg3all, hg3mem⟩ := Re.mem_pdigits.mp h8
  rw [e7] at hg3mem
  have h6 : g3d ++ (f2d ++ e2d) ∈ L6 :=
    Re.popt_collapse hgood s6 (fun _ hc => keep_not_wsDash hc) hg3mem
  rw [e6] at h6
  have h5 : g3d ++ (f2d ++ e2d) ∈ L5 :=
    Re.popt_collapse hgood s5 (fun _ hc => keep_not_rparen hc) h6
  rw [e5] at h5
  obtain ⟨t2d, ht2len, ht2all, ht2mem⟩ := Re.mem_pdigits.mp h5
  rw [e4] at ht2mem
  obtain ⟨c0, hc0, hc0mem⟩ := Re.mem_pchar.mp ht2mem
  rw [e3] at hc0mem
  have h2m : c0 :: (t2d ++ (g3d ++ (f2d ++ e2d))) ∈ L2 :=
    Re.popt_collapse hgood s2 (fun _ hc => keep_not_lparen hc) hc0mem
  rw [e2] at h2m
  have h1m : c0 :: (t2d ++ (g3d ++ (f2d ++ e2d))) ∈ L1 :=
    Re.popt_collapse hgood s1 (fun _ hc => keep_not_wsDash hc) h2m
  rw [e1] at h1m
  refine ⟨c0, t2d ++ (g3d ++ (f2d ++ e2d)), hc0, ?_, ?_, ?_⟩
  · simp [ht2len, hg3len, hf2len, he2len]
  · simp [List.all_append, ht2all, hg3all, hf2all, he2all]
  · rcases Re.mem_popt.mp h1m with hy | hy
    · exact Or.inl (List.mem_singleton.mp hy).symm
    · rcases Re.mem_palt.mp hy with hy | hy
      · obtain ⟨d, hd, hdm⟩ := Re.mem_pchar.mp hy
        obtain ⟨e, he, hem⟩ := Re.mem_pchar.mp hdm
        rw [beq_iff_eq] at hd he
        subst hd
        subst he
        exact Or.inr (Or.inr (Or.inr (List.mem_singleton.mp hem).symm))
      · rcases Re.mem_palt.mp hy with hy | hy
        · obtain ⟨d, hd, hdm⟩ := Re.mem_pchar.mp hy
          rw [beq_iff_eq] at hd
          subst hd
          exact Or.inr (Or.inl (List.mem_singleton.mp hdm).symm)
        · obtain ⟨d, hd, hdm⟩ := Re.mem_pchar.mp hy
          rw [beq_iff_eq] at hd
          subst hd
          exact Or.inr (Or.inr (Or.inl (List.mem_singleton.mp hdm).symm))

/-- Stripping is idempotent: a second pass removes nothing. -/
theorem clean_phone_chars_idem (x : List Char) :
    clean_phone_chars (clean_phone_chars x) = clean_phone_chars x := by
  unfold clean_phone_chars
  rw [List.filter_filter]
  apply List.filter_congr
  intro y _
  exact Bool.and_self _

/-- Every character surviving the strip is a kept character. -/
theorem clean_phone_chars_good (x : List Char) :
    (clean_phone_chars x).all phoneKeepChar = true := by
  rw [List.all_eq_true]
  intro y hy
  exact (List.mem_filter.mp hy).2

/-- An accepted stripped phone value has the spec's Russian phone shape. -/
theorem russianPhoneShape_of_match {v : List Char}
    (hgood : v.all phoneKeepChar = true) (hm : matchPhone v = true) :
    russianPhoneShape v := by
  obtain ⟨c0, rest9, hc0, hlen, hall, hcase⟩ := matchPhone_shape hgood hm
  have hc0' : c0 = '4' ∨ c0 = '8' ∨ c0 = '9' := by
    simp only [digit489, Bool.or_eq_true, beq_iff_eq] at hc0
    rcases hc0 with (h | h) | h
    exacts [Or.inl h, Or.inr (Or.inl h), Or.inr (Or.inr h)]
  have hc0d : Char.isDigit c0 = true := by
    rcases hc0' with rfl | rfl | rfl <;> decide
  unfold russianPhoneShape phoneDigitsPart
  rcases hcase with rfl | rfl | rfl | rfl
  · rw [if_neg (by
      simp only [List.head?_cons, Option.some.injEq]
      rcases hc0' with rfl | rfl | rfl <;> decide)]
    refine ⟨?_, Or.inr (by simp [hlen])⟩
    simp only [List.all_cons, Bool.and_eq_true]
    exact ⟨hc0d, hall⟩
  · rw [if_neg (by
      simp only [List.head?_cons, Option.some.injEq]
      decide)]
    refine ⟨?_, Or.inl ⟨by simp [hlen], Or.inl (by simp)⟩⟩
    simp only [List.all_cons, Bool.and_eq_true]
    exact ⟨by decide, hc0d, hall⟩
  · rw [if_neg (by
      simp only [List.head?_cons, Option.some.injEq]
      decide)]
    refine ⟨?_, Or.inl ⟨by simp [hlen], Or.inr (by simp)⟩⟩
    simp only [List.all_cons, Bool.and_eq_true]
    exact ⟨by decide, hc0d, hall⟩
  · rw [if_pos (by simp)]
    simp only [List.tail_cons]
    refine ⟨?_, Or.inl ⟨by simp [hlen], Or.inl (by simp)⟩⟩
    simp only [List.all_cons, Bool.and_eq_true]
    exact ⟨by decide, hc0d, hall⟩

/-- `Phone._validate_phone` only rewrites the number field (to the
stripped value). -/
theorem Phone.validate_number_ok {p q : Phone}
    (h : Phone.validate_phone p = .ok q) :
    q = { p with number := clean_phone_chars p.number } ∧
    matchPhone (clean_phone_chars p.number) = true := by
  simp only [Phone.validate_phone] at h
  split at h
  · next hm => exact ⟨(Except.ok.injEq _ _).mp h |>.symm, hm⟩
  · cases h

/-- C5: phone validation strips every character except digits and `+`,
accepts only values of the Russian phone shape, and persists the stripped
value; normalization is idempotent and an already-normalized accepted
value re-validates to itself unchanged, for the applications validator and
the contacts validator alike. -/
theorem phone_validation_normalization :
    (∀ x : List Char,
      clean_phone_chars (clean_phone_chars x) = clean_phone_chars x) ∧
    (∀ a b : Application, Application.validate_phone a = .ok b →
      b.phone = clean_phone_chars a.phone ∧ russianPhoneShape b.phone ∧
      Application.validate_phone b = .ok b) ∧
    (∀ p q : Phone, Phone.validate_phone p = .ok q →
      q.number = clean_phone_chars p.number ∧ russianPhoneShape q.number ∧
      Phone.validate_phone q = .ok q) := by
  refine ⟨clean_phone_chars_idem, ?_, ?_⟩
  · intro a b h
    obtain ⟨hb, hm⟩ := Application.validate_phone_ok h
    subst hb
    refine ⟨rfl, russianPhoneShape_of_match (clean_phone_chars_good _) hm, ?_⟩
    simp only [Application.validate_phone]
    rw [clean_phone_chars_idem, if_pos hm]
  · intro p q h
    obtain ⟨hq, hm⟩ := Phone.validate_number_ok h
    subst hq
    refine ⟨rfl, russianPhoneShape_of_match (clean_phone_chars_good _) hm, ?_⟩
    simp only [Phone.validate_phone]
    rw [clean_phone_chars_idem, if_pos hm]

set_option maxHeartbeats 2000000 in
/-- Witness for C5: the formatted input `+7 (999) 123-45-67` is stripped
to `+79991234567`, which has the Russian phone shape. -/
theorem phone_validation_normalization_witness :
    clean_phone_chars (clean_phone_chars "+7 (999) 123-45-67".toList) =
      clean_phone_chars "+7 (999) 123-45-67".toList ∧
    Application.validate_phone
        ⟨none, "i", "+7 (999) 123-45-67".toList, [], "m", "new", "", none⟩ =
      .ok ⟨none, "i", "+79991234567".toList, [], "m", "new", "", none⟩ ∧
    russianPhoneShape "+79991234567".toList :=
  ⟨phone_validation_normalization.1 "+7 (999) 123-45-67".toList,
   by rfl,
   (phone_validation_normalization.2.1
      ⟨none, "i", "+7 (999) 123-45-67".toList, [], "m", "new", "", none⟩
      ⟨none, "i", "+79991234567".toList, [], "m", "new", "", none⟩
      (by rfl)).2.1⟩
